import Mathlib

/-!
Verification development for the two appcast utilities
`scripts/macos/update_appcast.py` (Feed Updater) and
`scripts/macos/validate_appcast.py` (Feed Validator).

The XML trees manipulated by `xml.etree.ElementTree` are embedded as the
inductive `Element` below (tag, attribute dictionary, text, child elements).
Python-level behaviours that matter to the scripts are modelled explicitly:

* `Element.__bool__` is `len(children) != 0`, so a childless element is
  falsy in an `or` chain (`pyElemTruthy`);
* `el.find(path)` for a plain tag (no `/ * [ @ .` characters) is a literal
  first-child tag match done by the C accelerator, even when the path
  contains a namespace prefix and no namespace map is supplied — so
  `item.find("sparkle:version")` looks for a child whose tag is literally
  the string `sparkle:version` (`etFindChild`);
* with a namespace map, `item.find("sparkle:version", {"sparkle": NS})`
  resolves to the qualified tag `{NS}version`, identical to
  `item.find(sparkle_tag("version"))`;
* `dict` assignment keeps insertion order and overwrites in place
  (`dictSet`), and `str` truthiness is non-emptiness (`pyStrTruthy`).
-/

set_option maxRecDepth 8000

namespace Appcast

/-- Python `s.startswith(pre)` on explicit character lists (Lean's
`String.startsWith` is byte-based and does not reduce in the kernel; the
scripts only ever compare plain character sequences). -/
def listStartsWith : List Char → List Char → Bool
  | _, [] => true
  | [], _ :: _ => false
  | a :: as, b :: bs => a == b && listStartsWith as bs

/-- Python `s.startswith(pre)`. -/
def pyStartsWith (s pre : String) : Bool :=
  listStartsWith s.data pre.data

/-- Python `c in s` for a single character. -/
def pyContainsChar (s : String) (c : Char) : Bool :=
  s.data.any (fun d => d == c)

/-- Python `s[n:]` (drop the first `n` characters). -/
def pyDropChars (s : String) (n : Nat) : String :=
  String.mk (s.data.drop n)

/-- The characters Python's `str.strip()` removes (the ASCII whitespace
characters; the scripts never meet the Unicode ones). -/
def pyIsSpace (c : Char) : Bool :=
  c == ' ' || c == '\t' || c == '\n' || c == '\r' || c == '\x0b' || c == '\x0c'

/-- Python `s.strip()`: remove leading and trailing whitespace. -/
def pyStrip (s : String) : String :=
  String.mk (((s.data.dropWhile pyIsSpace).reverse.dropWhile pyIsSpace).reverse)

/-- An XML element as manipulated by `xml.etree.ElementTree`: a tag, an
attribute dictionary (insertion-ordered, unique keys), optional text, and a
list of child elements.  Namespace-qualified names are the usual
`{uri}local` strings. -/
inductive Element : Type where
  | mk (tag : String) (attrib : List (String × String)) (text : Option String)
      (children : List Element)

def Element.tag : Element → String
  | .mk t _ _ _ => t

def Element.attrib : Element → List (String × String)
  | .mk _ a _ _ => a

def Element.text : Element → Option String
  | .mk _ _ x _ => x

def Element.children : Element → List Element
  | .mk _ _ _ cs => cs

/-- Python `dict` lookup `d.get(k)`: `None` when the key is absent. -/
def dictGet (m : List (String × String)) (k : String) : Option String :=
  (m.find? (fun p => p.1 == k)).map (·.2)

/-- `el.get(key)`: attribute lookup, `None` when absent. -/
def Element.getAttr (e : Element) (key : String) : Option String :=
  dictGet e.attrib key

/-- Python `dict` assignment `d[k] = v`: replace the entry in place when the
key is present, append otherwise (insertion order preserved). -/
def dictSet (m : List (String × String)) (k v : String) : List (String × String) :=
  if m.any (fun p => p.1 == k) then
    m.map (fun p => if p.1 == k then (k, v) else p)
  else
    m ++ [(k, v)]

/-- `el.set(key, value)`. -/
def Element.setAttr (e : Element) (k v : String) : Element :=
  .mk e.tag (dictSet e.attrib k v) e.text e.children

/-- `el.find(tag)` for a plain tag path: the first direct child with exactly
that tag (the CPython accelerator does a literal string comparison; a path
such as `sparkle:version` used without a namespace map is looked up as the
literal tag `sparkle:version`). -/
def etFindChild (e : Element) (tag : String) : Option Element :=
  e.children.find? (fun c => c.tag == tag)

/-- `el.findall(tag)` for a plain tag path: all direct children with that
tag, in document order. -/
def etFindAll (e : Element) (tag : String) : List Element :=
  e.children.filter (fun c => c.tag == tag)

mutual

/-- `el.iter()`: the element itself followed by all descendants, in document
order. -/
def elemsIn : Element → List Element
  | .mk t a x cs => .mk t a x cs :: elemsInList cs

/-- `elemsIn` mapped over a list of elements and concatenated. -/
def elemsInList : List Element → List Element
  | [] => []
  | c :: cs => elemsIn c ++ elemsInList cs

end

/-- Python truthiness of an `Element | None` value: `None` is falsy, and an
`Element` is falsy exactly when it has no children
(`Element.__bool__ = len(children) != 0`). -/
def pyElemTruthy : Option Element → Bool
  | none => false
  | some e => !e.children.isEmpty

/-- Python truthiness of a `str | None` value: `None` and `""` are falsy. -/
def pyStrTruthy : Option String → Bool
  | none => false
  | some s => !(s == "")

/-- Python `x or y` on `str | None` values. -/
def pyOrStr (a b : Option String) : Option String :=
  if pyStrTruthy a then a else b

/-- The Sparkle namespace URI (`SPARKLE_NS` in both scripts). -/
def SPARKLE_NS : String := "http://www.andymatuschak.org/xml-namespaces/sparkle"

/-- `sparkle_tag(name)`: the namespace-qualified tag `{SPARKLE_NS}name`. -/
def sparkle_tag (name : String) : String :=
  "\x7b" ++ SPARKLE_NS ++ "\x7d" ++ name

/-- The `f"{{{SPARKLE_NS}}}"` prefix used by the Validator's namespace
scan. -/
def sparkleBracePrefix : String := "\x7b" ++ SPARKLE_NS ++ "\x7d"

end Appcast

namespace Appcast

/-- `has_sparkle_namespace` from `validate_appcast.py`: some element of the
tree has a tag, or an attribute key, starting with `{SPARKLE_NS}`. -/
def hasSparkleNamespace (root : Element) : Bool :=
  (elemsIn root).any (fun el =>
    pyStartsWith el.tag sparkleBracePrefix ||
      el.attrib.any (fun p => pyStartsWith p.1 sparkleBracePrefix))

/-! ### Generation time and `strftime("%a, %d %b %Y %H:%M:%S %z")`

`update_appcast.py` takes `now = datetime.now(timezone.utc)` and writes
`now.strftime("%a, %d %b %Y %H:%M:%S %z")` into the new item's `pubDate`.
A UTC instant is embedded as its proleptic-Gregorian calendar fields. -/

structure UTCTime where
  year : Nat
  month : Nat
  day : Nat
  hour : Nat
  minute : Nat
  second : Nat
deriving Repr, DecidableEq

/-- Gregorian leap-year test. -/
def isLeap (y : Nat) : Bool :=
  (y % 4 == 0 && y % 100 != 0) || y % 400 == 0

/-- Number of leap years in `1..y`. -/
def leapCount (y : Nat) : Nat :=
  y / 4 - y / 100 + y / 400

/-- Days in the months strictly before month `m` of a non-leap year. -/
def monthOffset : Nat → Nat
  | 1 => 0 | 2 => 31 | 3 => 59 | 4 => 90 | 5 => 120 | 6 => 151
  | 7 => 181 | 8 => 212 | 9 => 243 | 10 => 273 | 11 => 304 | 12 => 334
  | _ => 0

/-- Days elapsed since 0001-01-01 (day 0) in the proleptic Gregorian
calendar. -/
def daysSinceEpoch (t : UTCTime) : Nat :=
  365 * (t.year - 1) + leapCount (t.year - 1) + monthOffset t.month +
    (if 2 < t.month && isLeap t.year then 1 else 0) + (t.day - 1)

/-- Seconds elapsed since 0001-01-01T00:00:00Z; instants are ordered by this
value. -/
def toSeconds (t : UTCTime) : Nat :=
  daysSinceEpoch t * 86400 + t.hour * 3600 + t.minute * 60 + t.second

/-- `%a`: abbreviated weekday name (0001-01-01 was a Monday). -/
def weekdayAbbrev (t : UTCTime) : String :=
  match daysSinceEpoch t % 7 with
  | 0 => "Mon" | 1 => "Tue" | 2 => "Wed" | 3 => "Thu" | 4 => "Fri"
  | 5 => "Sat" | _ => "Sun"

/-- `%b`: abbreviated month name. -/
def monthAbbrev : Nat → String
  | 1 => "Jan" | 2 => "Feb" | 3 => "Mar" | 4 => "Apr" | 5 => "May" | 6 => "Jun"
  | 7 => "Jul" | 8 => "Aug" | 9 => "Sep" | 10 => "Oct" | 11 => "Nov" | 12 => "Dec"
  | _ => "???"

def digitChar : Nat → Char
  | 0 => '0' | 1 => '1' | 2 => '2' | 3 => '3' | 4 => '4'
  | 5 => '5' | 6 => '6' | 7 => '7' | 8 => '8' | _ => '9'

/-- Two-digit zero-padded decimal (`%d`, `%H`, `%M`, `%S`). -/
def pad2 (n : Nat) : String :=
  String.mk [digitChar (n / 10 % 10), digitChar (n % 10)]

/-- Four-digit zero-padded decimal (`%Y` for the years the scripts meet). -/
def pad4 (n : Nat) : String :=
  String.mk [digitChar (n / 1000 % 10), digitChar (n / 100 % 10),
    digitChar (n / 10 % 10), digitChar (n % 10)]

/-- `now.strftime("%a, %d %b %Y %H:%M:%S %z")` for a UTC instant (`%z` of
`timezone.utc` is `+0000`). -/
def formatPubDate (t : UTCTime) : String :=
  weekdayAbbrev t ++ ", " ++ pad2 t.day ++ " " ++ monthAbbrev t.month ++ " " ++
    pad4 t.year ++ " " ++ pad2 t.hour ++ ":" ++ pad2 t.minute ++ ":" ++
    pad2 t.second ++ " +0000"

/-- Lexicographic `≤` on character lists, by code point. -/
def lexLeChars : List Char → List Char → Bool
  | [], _ => true
  | _ :: _, [] => false
  | a :: as, b :: bs =>
    if a.toNat < b.toNat then true
    else if b.toNat < a.toNat then false
    else lexLeChars as bs

/-- Lexicographic `≤` on strings, by code point. -/
def strLexLe (a b : String) : Bool :=
  lexLeChars a.data b.data

/-! ### The Updater's `sign_update.txt` parsing

```python
attrs = {}
for pair in f.read().split(" "):
    key, value = pair.split("=", 1)
    value = value.strip()
    if value and value[0] == '"':
        value = value[1:-1]
    attrs[key] = value
```
-/

/-- Python `s.split(" ")`: split at every single space, keeping empty
pieces (`"".split(" ") == [""]`, `"a  b".split(" ") == ["a", "", "b"]`). -/
def pySplitSpaceChars : List Char → List Char → List (List Char)
  | [], acc => [acc.reverse]
  | c :: cs, acc =>
    if c == ' ' then acc.reverse :: pySplitSpaceChars cs []
    else pySplitSpaceChars cs (c :: acc)

def pySplitSpace (s : String) : List String :=
  (pySplitSpaceChars s.data []).map String.mk

/-- Python `s.split("=", 1)`: split at the first `=`; `none` when there is
no `=` (in which case the script's tuple unpacking raises `ValueError`). -/
def splitFirstEqChars : List Char → Option (List Char × List Char)
  | [] => none
  | c :: cs =>
    if c == '=' then some ([], cs)
    else (splitFirstEqChars cs).map (fun p => (c :: p.1, p.2))

def pySplitFirstEq (s : String) : Option (String × String) :=
  (splitFirstEqChars s.data).map (fun p => (String.mk p.1, String.mk p.2))

/-- One iteration of the parsing loop: split a token at its first `=`,
strip the value, and remove the first and last characters when the stripped
value starts with a double quote (`value[1:-1]`). -/
def parseAttrPair (pair : String) : Except String (String × String) :=
  match pySplitFirstEq pair with
  | none => .error ("ValueError: not enough values to unpack: " ++ pair)
  | some (key, rawValue) =>
    let v := pyStrip rawValue
    let v := if !(v == "") && v.data.head? == some '"'
      then String.mk (v.data.drop 1).dropLast else v
    .ok (key, v)

/-- The whole parsing loop over the blob read from `sign_update.txt`:
the resulting `attrs` dictionary, or the uncaught `ValueError`. -/
def parseSignAttrs (blob : String) : Except String (List (String × String)) :=
  (pySplitSpace blob).foldlM
    (fun m pair => do
      let kv ← parseAttrPair pair
      pure (dictSet m kv.1 kv.2))
    []

end Appcast

namespace Appcast

/-! ### The Feed Updater (`update_appcast.py`) -/

/-- The environment-provided parameters of one Updater run
(`INLINE_BUILD`, `INLINE_VERSION`, `INLINE_CHANNEL`, `INLINE_DMG_URL`,
`INLINE_MIN_MACOS`, `INLINE_COMMIT`, `APPCAST_PATH`) together with the
generation instant `now`.  `INLINE_COMMIT_LONG` is read by the script but
never used. -/
structure UpdEnv where
  build : String
  version : String
  channel : String
  dmg_url : String
  min_macos : String
  commit : String
  appcast_path : String
  now : UTCTime

/-- The state of the existing appcast file: absent, present but not
well-formed XML, or parsed into a root element. -/
inductive FeedInput where
  | missing
  | parseFailure (msg : String)
  | parsed (root : Element)

/-- `ET.Element("rss", {"version": "2.0"})`. -/
def freshRoot : Element := .mk "rss" [("version", "2.0")] none []

/-- Loading of the existing appcast: a parse failure prints a warning to
stderr (returned as the first component) and falls back to a fresh `rss`
root, exactly like a missing file. -/
def loadRoot (appcast_path : String) : FeedInput → Option String × Element
  | .missing => (none, freshRoot)
  | .parseFailure m =>
    (some ("Warning: failed to parse existing appcast (" ++ appcast_path ++ "): " ++ m),
      freshRoot)
  | .parsed r => (none, r)

/-- The channel element the Updater creates when the document has none,
with its static descriptive fields. -/
def newChannelEl (channel : String) : Element :=
  .mk "channel" [] none
    [.mk "title" [] (some ("Inline macOS (" ++ channel ++ ")")) [],
     .mk "link" [] (some "https://inline.chat") [],
     .mk "description" [] (some "Inline macOS updates") []]

/-- `find_sparkle_child` from `update_appcast.py`:

```python
return (
    item.find(sparkle_tag(name))
    or item.find(f"sparkle:{name}", namespaces)
    or item.find(f"sparkle:{name}")
)
```

The first two `find`s both resolve to the qualified tag `{NS}name`; an
`Element` result is falsy whenever it has no children, in which case the
`or` chain moves on.  The third `find` has no namespace map, so CPython
looks for a child whose tag is literally `sparkle:name`. -/
def upd_find_sparkle_child (item : Element) (name : String) : Option Element :=
  let a := etFindChild item (sparkle_tag name)
  if pyElemTruthy a then a
  else
    let b := etFindChild item (sparkle_tag name)
    if pyElemTruthy b then b
    else etFindChild item ("sparkle:" ++ name)

/-- The removal condition of the Updater's loop:
`version_el is not None and version_el.text == build`. -/
def matchesBuild (build : String) (it : Element) : Bool :=
  match upd_find_sparkle_child it "version" with
  | none => false
  | some v => v.text == some build

/-- The loop `for item in list(channel_el.findall("item")): ...
channel_el.remove(item)`: remove every direct `item` child that satisfies
`matchesBuild`, keeping all other children in order. -/
def removeSameBuildItems (build : String) (cs : List Element) : List Element :=
  cs.filter (fun c => !(c.tag == "item" && matchesBuild build c))

/-- `key.split(":", 1)[1]` under the `key.startswith("sparkle:")` guard:
a `sparkle:`-prefixed key becomes the namespace-qualified attribute name,
any other key is used as-is. -/
def translateKey (k : String) : String :=
  if pyStartsWith k "sparkle:" then sparkle_tag (pyDropChars k 8) else k

/-- The new item's enclosure: `url`, then `type`, then one attribute per
`attrs` entry (dictionary assignment order). -/
def buildEnclosure (dmg_url : String) (attrs : List (String × String)) : Element :=
  .mk "enclosure"
    (attrs.foldl (fun m p => dictSet m (translateKey p.1) p.2)
      (dictSet (dictSet [] "url" dmg_url) "type" "application/octet-stream"))
    none []

/-- The new `<item>` the Updater constructs (lines 93-121 of
`update_appcast.py`); the `description` child is present exactly when
`commit` is a non-empty string. -/
def buildItem (env : UpdEnv) (attrs : List (String × String)) : Element :=
  .mk "item" [] none
    ([.mk "title" [] (some ("Inline " ++ env.version)) [],
      .mk "pubDate" [] (some (formatPubDate env.now)) [],
      .mk (sparkle_tag "version") [] (some env.build) [],
      .mk (sparkle_tag "shortVersionString") [] (some env.version) [],
      .mk (sparkle_tag "minimumSystemVersion") [] (some env.min_macos) []]
     ++ (if !(env.commit == "") then
          [.mk "description" []
            (some ("<p>Build " ++ env.build ++ " from commit " ++ env.commit ++ ".</p>")) []]
        else [])
     ++ [buildEnclosure env.dmg_url attrs])

/-- Replace the first element satisfying `p` by its image under `f`. -/
def mapFirst (p : Element → Bool) (f : Element → Element) : List Element → List Element
  | [] => []
  | c :: cs => if p c then f c :: cs else c :: mapFirst p f cs

/-- What the Updater does to the channel element it operates on: run the
removal loop over its children, then append the new item. -/
def upsertChannel (env : UpdEnv) (attrs : List (String × String)) (ch : Element) : Element :=
  .mk ch.tag ch.attrib ch.text
    (removeSameBuildItems env.build ch.children ++ [buildItem env attrs])

/-- One whole run of `update_appcast.py` on already-parsed inputs: load or
create the document, ensure a channel exists (creating it with its static
fields when absent), upsert into the first channel, and return the
(warning printed to stderr, document written to the output path) pair. -/
def runUpdate (env : UpdEnv) (attrs : List (String × String)) (feed : FeedInput) :
    Option String × Element :=
  let loaded := loadRoot env.appcast_path feed
  let root := loaded.2
  let root1 :=
    if (etFindChild root "channel").isSome then root
    else .mk root.tag root.attrib root.text (root.children ++ [newChannelEl env.channel])
  (loaded.1,
    .mk root1.tag root1.attrib root1.text
      (mapFirst (fun c => c.tag == "channel") (upsertChannel env attrs) root1.children))

/-! ### The Feed Validator (`validate_appcast.py`) -/

/-- `find_sparkle_child` from `validate_appcast.py`: the qualified lookup,
retried with an explicit namespace map (which resolves to the same
qualified tag) when the first returns `None`. -/
def val_find_sparkle_child (item : Element) (name : String) : Option Element :=
  match etFindChild item (sparkle_tag name) with
  | none => etFindChild item (sparkle_tag name)
  | some e => some e

/-- `not (el.text or "").strip()` failure test, combined with the
`el is None` test: the element exists and its text strips to something
non-empty. -/
def nonBlankText : Option Element → Bool
  | none => false
  | some e => !(pyStrip (e.text.getD "") == "")

/-- The Validator's per-item checks, in source order; the returned error is
the diagnostic printed to stderr before `return 1`. -/
def checkItem (it : Element) : Except String Unit :=
  if !(nonBlankText (val_find_sparkle_child it "version")) then
    .error "Missing sparkle:version"
  else if !(nonBlankText (val_find_sparkle_child it "shortVersionString")) then
    .error "Missing sparkle:shortVersionString"
  else
    match etFindChild it "enclosure" with
    | none => .error "Missing enclosure"
    | some enclosure =>
      if !(pyStrTruthy (enclosure.getAttr "url")) then
        .error "Missing enclosure url"
      else if !(pyStrTruthy (pyOrStr (enclosure.getAttr (sparkle_tag "edSignature"))
          (enclosure.getAttr "sparkle:edSignature"))) then
        .error "Missing sparkle:edSignature"
      else if !(pyStrTruthy (enclosure.getAttr "length")) then
        .error "Missing enclosure length"
      else .ok ()

/-- The `for item in items` loop: first failing item wins. -/
def checkItems : List Element → Except String Unit
  | [] => .ok ()
  | it :: rest =>
    match checkItem it with
    | .ok _ => checkItems rest
    | .error e => .error e

/-- `main()` of `validate_appcast.py` on already-parsed inputs.  `.ok ()`
is exit code 0; `.error msg` is the diagnostic printed to stderr followed
by exit code 1.  `require_build`/`require_url` are `none` when the flag is
absent; an empty string is falsy, so the corresponding check is skipped
(`if args.require_build:`). -/
def validateAppcast (feed : FeedInput) (require_build require_url : Option String) :
    Except String Unit :=
  match feed with
  | .missing => .error "Appcast not found"
  | .parseFailure m => .error ("Appcast XML parse error: " ++ m)
  | .parsed root =>
    if !(hasSparkleNamespace root) then
      .error "Appcast missing Sparkle namespace usage"
    else
      match etFindChild root "channel" with
      | none => .error "Appcast missing <channel>"
      | some channel =>
        let items := etFindAll channel "item"
        if items.isEmpty then .error "Appcast has no <item> entries"
        else if pyStrTruthy require_build &&
            !(items.any (fun it =>
              (val_find_sparkle_child it "version").isSome &&
                ((val_find_sparkle_child it "version").bind Element.text == require_build))) then
          .error ("Appcast missing build " ++ require_build.getD "")
        else if pyStrTruthy require_url &&
            !(items.any (fun it =>
              (etFindChild it "enclosure").isSome &&
                ((etFindChild it "enclosure").bind (fun e => e.getAttr "url") == require_url))) then
          .error ("Appcast missing enclosure URL " ++ require_url.getD "")
        else checkItems items

/-! ### Claim-level vocabulary

Definitions spelling the spec's phrases directly, used to state the claims
against the embedded scripts. -/

/-- The build identifier of an item as the spec reads it: the text of its
`sparkle:version` child (the namespace-qualified tag). -/
def itemBuildText (it : Element) : Option String :=
  (etFindChild it (sparkle_tag "version")).bind Element.text

/-- The display version of an item: the text of its
`sparkle:shortVersionString` child. -/
def itemShortText (it : Element) : Option String :=
  (etFindChild it (sparkle_tag "shortVersionString")).bind Element.text

/-- A tag an XML parse can actually produce: expat resolves every declared
prefix to the `{uri}local` form and rejects undeclared prefixes, so a
parsed tag either starts with `{` or contains no colon. -/
def goodTag (t : String) : Bool :=
  !(pyContainsChar t ':') || pyStartsWith t "\x7b"

/-- Every tag in the tree is one a parsed document can contain. -/
def wfParsedTags (e : Element) : Bool :=
  (elemsIn e).all (fun el => goodTag el.tag)

/-- The Feed Validator contract of the spec, spelled condition by
condition: the input exists and parses; the Sparkle namespace occurs as an
element tag or attribute key; a channel exists; at least one item exists;
a (non-empty) required build is carried by some item's `sparkle:version`
text; a (non-empty) required URL is carried by some item's enclosure `url`;
and every item has non-blank `sparkle:version` and
`sparkle:shortVersionString` texts and an enclosure with non-empty `url`,
`sparkle:edSignature` (qualified or literal) and `length` attributes. -/
def specValidatorOk (feed : FeedInput) (require_build require_url : Option String) : Prop :=
  ∃ root, feed = .parsed root ∧
    hasSparkleNamespace root = true ∧
    ∃ ch, etFindChild root "channel" = some ch ∧
      etFindAll ch "item" ≠ [] ∧
      (pyStrTruthy require_build = true →
        ∃ it ∈ etFindAll ch "item", itemBuildText it = require_build) ∧
      (pyStrTruthy require_url = true →
        ∃ it ∈ etFindAll ch "item", ∃ enc, etFindChild it "enclosure" = some enc ∧
          dictGet enc.attrib "url" = require_url) ∧
      ∀ it ∈ etFindAll ch "item",
        (∃ v, etFindChild it (sparkle_tag "version") = some v ∧
          pyStrip (v.text.getD "") ≠ "") ∧
        (∃ v, etFindChild it (sparkle_tag "shortVersionString") = some v ∧
          pyStrip (v.text.getD "") ≠ "") ∧
        ∃ enc, etFindChild it "enclosure" = some enc ∧
          (∃ u, dictGet enc.attrib "url" = some u ∧ u ≠ "") ∧
          ((∃ s, dictGet enc.attrib (sparkle_tag "edSignature") = some s ∧ s ≠ "") ∨
            (∃ s, dictGet enc.attrib "sparkle:edSignature" = some s ∧ s ≠ "")) ∧
          (∃ l, dictGet enc.attrib "length" = some l ∧ l ≠ "")

/-- A `key=value` token of the attribute input blob, as the spec describes
it: a key, a value, and whether the value is double-quoted. -/
def renderAttrToken (t : String × String × Bool) : String :=
  t.1 ++ "=" ++ (if t.2.2 then "\"" ++ t.2.1 ++ "\"" else t.2.1)

/-- Tokens joined by single spaces (the separator the parser splits on). -/
def joinTokens : List String → String
  | [] => ""
  | [t] => t
  | t :: rest => t ++ " " ++ joinTokens rest

/-! ### Concrete documents and runs used by individual theorems -/

/-- A typical Updater environment: build `42`, version `1.2.0`. -/
def exEnv : UpdEnv :=
  { build := "42", version := "1.2.0", channel := "stable",
    dmg_url := "https://example.com/app-42.dmg", min_macos := "15.0",
    commit := "", appcast_path := "appcast.xml",
    now := ⟨2024, 1, 1, 0, 0, 0⟩ }

/-- A typical parsed signing-attribute mapping. -/
def exAttrs : List (String × String) :=
  [("sparkle:edSignature", "abc"), ("length", "5")]

/-- A signing-attribute mapping that also carries a `url` key: it satisfies
the round-trip claim's premise yet overrides the enclosure's `url`. -/
def exAttrsWithUrl : List (String × String) :=
  [("sparkle:edSignature", "abc"), ("length", "5"), ("url", "")]

/-- A fully populated pre-existing feed item for build `42`, exactly of the
shape the Updater itself writes (its `sparkle:version` child is a leaf). -/
def exItem42 : Element :=
  .mk "item" [] none
    [.mk "title" [] (some "Inline 1.0.0") [],
     .mk (sparkle_tag "version") [] (some "42") [],
     .mk (sparkle_tag "shortVersionString") [] (some "1.0.0") [],
     .mk "enclosure" [("url", "https://example.com/app-41.dmg"),
       ("type", "application/octet-stream"), (sparkle_tag "edSignature", "old"),
       ("length", "4")] none []]

/-- A populated channel already holding `exItem42`. -/
def exChannel42 : Element :=
  .mk "channel" [] none
    [.mk "title" [] (some "Inline macOS (stable)") [],
     .mk "link" [] (some "https://inline.chat") [],
     .mk "description" [] (some "Inline macOS updates") [],
     exItem42]

/-- An existing well-formed appcast whose channel already holds `exItem42`. -/
def exRoot42 : Element :=
  .mk "rss" [("version", "2.0")] none [exChannel42]

/-! ### Helper lemmas -/

theorem val_find_eq (it : Element) (name : String) :
    val_find_sparkle_child it name = etFindChild it (sparkle_tag name) := by
  unfold val_find_sparkle_child
  cases h : etFindChild it (sparkle_tag name) <;> simp

theorem pyStrTruthy_iff (x : Option String) :
    pyStrTruthy x = true ↔ ∃ s, x = some s ∧ s ≠ "" := by
  cases x <;> simp [pyStrTruthy]

theorem pyStrTruthy_pyOrStr (a b : Option String) :
    pyStrTruthy (pyOrStr a b) = (pyStrTruthy a || pyStrTruthy b) := by
  unfold pyOrStr
  by_cases h : pyStrTruthy a = true
  · simp [h]
  · rw [Bool.not_eq_true] at h
    simp [h]

theorem checkItems_ok_iff (l : List Element) :
    checkItems l = .ok () ↔ ∀ it ∈ l, checkItem it = .ok () := by
  induction l with
  | nil => simp [checkItems]
  | cons it rest ih =>
    simp only [checkItems]
    cases h : checkItem it with
    | ok u => cases u; simp [h, ih]
    | error e => simp [h]

theorem find?_mapFirst_decomp (p : Element → Bool) (f : Element → Element)
    (l : List Element) (a : Element) (h : l.find? p = some a) :
    ∃ l1 l2, l = l1 ++ a :: l2 ∧ (∀ x ∈ l1, p x = false) ∧
      mapFirst p f l = l1 ++ f a :: l2 := by
  induction l with
  | nil => simp [List.find?] at h
  | cons c cs ih =>
    by_cases hc : p c = true
    · rw [List.find?_cons_of_pos _ hc] at h
      cases h
      exact ⟨[], cs, rfl, by simp, by simp [mapFirst, hc]⟩
    · rw [Bool.not_eq_true] at hc
      rw [List.find?_cons_of_neg _ (by simp [hc])] at h
      obtain ⟨l1, l2, hl, hfail, hmap⟩ := ih h
      exact ⟨c :: l1, l2, by simp [hl], by simpa [hc] using hfail,
        by simp [mapFirst, hc, hmap]⟩

theorem mapFirst_append_of_fail (p : Element → Bool) (f : Element → Element)
    (l r : List Element) (h : ∀ x ∈ l, p x = false) :
    mapFirst p f (l ++ r) = l ++ mapFirst p f r := by
  induction l with
  | nil => simp
  | cons c cs ih =>
    have hc := h c (by simp)
    simp only [List.cons_append, mapFirst, hc]
    simp only [Bool.false_eq_true, if_false, List.append_eq]
    rw [ih (fun x hx => h x (by simp [hx]))]

theorem listStartsWith_append (a b : List Char) : listStartsWith (a ++ b) a = true := by
  induction a with
  | nil => cases b <;> rfl
  | cons c cs ih => simp [listStartsWith, ih]

theorem pyStartsWith_sparkle_tag (name : String) :
    pyStartsWith (sparkle_tag name) sparkleBracePrefix = true := by
  have h : (sparkle_tag name).data = sparkleBracePrefix.data ++ name.data := by
    simp [sparkle_tag, sparkleBracePrefix, String.data_append]
  rw [pyStartsWith, h]
  exact listStartsWith_append _ _

theorem self_mem_elemsIn (e : Element) : e ∈ elemsIn e := by
  cases e
  simp [elemsIn]

theorem mem_elemsInList_of_mem (c : Element) (cs : List Element) (h : c ∈ cs) :
    ∀ x ∈ elemsIn c, x ∈ elemsInList cs := by
  induction cs with
  | nil => simp at h
  | cons d ds ih =>
    intro x hx
    rcases List.mem_cons.mp h with rfl | hmem
    · simp only [elemsInList, List.mem_append]
      exact Or.inl hx
    · simp only [elemsInList, List.mem_append]
      exact Or.inr (ih hmem x hx)

theorem mem_elemsIn_of_child (e c : Element) (h : c ∈ e.children) :
    ∀ x ∈ elemsIn c, x ∈ elemsIn e := by
  cases e with
  | mk t a xt cs =>
    intro x hx
    simp only [elemsIn, List.mem_cons]
    exact Or.inr (mem_elemsInList_of_mem c cs h x hx)

theorem hasSparkleNamespace_of_mem (root el : Element) (h : el ∈ elemsIn root)
    (htag : pyStartsWith el.tag sparkleBracePrefix = true) :
    hasSparkleNamespace root = true := by
  unfold hasSparkleNamespace
  rw [List.any_eq_true]
  exact ⟨el, h, by simp [htag]⟩

theorem wfParsedTags_child (e c : Element) (hwf : wfParsedTags e = true)
    (h : c ∈ e.children) : wfParsedTags c = true := by
  unfold wfParsedTags at *
  rw [List.all_eq_true] at *
  intro x hx
  exact hwf x (mem_elemsIn_of_child e c h (x : Element) hx)

theorem etFindChild_sparkle_literal (it : Element) (name : String)
    (hwf : wfParsedTags it = true) :
    etFindChild it ("sparkle:" ++ name) = none := by
  unfold etFindChild
  cases h : it.children.find? (fun c => c.tag == ("sparkle:" ++ name)) with
  | none => rfl
  | some c =>
    exfalso
    have hc : (c.tag == ("sparkle:" ++ name)) = true := by
      have := List.find?_some h
      simpa using this
    have hmem : c ∈ it.children := List.mem_of_find?_eq_some h
    have hg : goodTag c.tag = true := by
      unfold wfParsedTags at hwf
      rw [List.all_eq_true] at hwf
      exact hwf c (mem_elemsIn_of_child it c hmem c (self_mem_elemsIn c))
    rw [beq_iff_eq] at hc
    rw [hc] at hg
    have h1 : pyContainsChar ("sparkle:" ++ name) ':' = true := by
      unfold pyContainsChar
      rw [String.data_append, List.any_append]
      have : "sparkle:".data.any (fun d => d == ':') = true := by decide
      simp [this]
    have h2 : pyStartsWith ("sparkle:" ++ name) "\x7b" = false := by
      unfold pyStartsWith
      rw [String.data_append]
      rfl
    rw [goodTag, h1, h2] at hg
    simp at hg

theorem matchesBuild_of_wf (build : String) (it : Element)
    (hwf : wfParsedTags it = true) :
    matchesBuild build it =
      (match etFindChild it (sparkle_tag "version") with
       | none => false
       | some v => !v.children.isEmpty && (v.text == some build)) := by
  unfold matchesBuild upd_find_sparkle_child
  have hlit : etFindChild it "sparkle:version" = none := by
    have := etFindChild_sparkle_literal it "version" hwf
    simpa using this
  cases h : etFindChild it (sparkle_tag "version") with
  | none => simp [h, pyElemTruthy, hlit]
  | some v =>
    by_cases hch : v.children.isEmpty = true
    · simp [h, pyElemTruthy, hch, hlit]
    · rw [Bool.not_eq_true] at hch
      simp [h, pyElemTruthy, hch]

theorem dictSet_of_fresh (m : List (String × String)) (k v : String)
    (h : ∀ p ∈ m, p.1 ≠ k) : dictSet m k v = m ++ [(k, v)] := by
  unfold dictSet
  have hany : m.any (fun p => p.1 == k) = false := by
    rw [List.any_eq_false]
    intro p hp
    simp [h p hp]
  simp [hany]

theorem dictGet_append_right (m r : List (String × String)) (k : String)
    (h : ∀ p ∈ m, p.1 ≠ k) : dictGet (m ++ r) k = dictGet r k := by
  unfold dictGet
  rw [List.find?_append]
  have hm : List.find? (fun q => q.1 == k) m = none := by
    rw [List.find?_eq_none]
    intro p hp
    simp [h p hp]
  rw [hm]
  rfl

/-- Replacing the entries keyed `k` does not change a lookup for a
different key. -/
theorem find?_map_replace (m : List (String × String)) (k v k' : String)
    (hne : k' ≠ k) :
    List.find? (fun q => q.1 == k')
        (m.map (fun q => if q.1 == k then (k, v) else q)) =
      List.find? (fun q => q.1 == k') m := by
  induction m with
  | nil => rfl
  | cons q qs ih =>
    by_cases hqk : (q.1 == k) = true
    · have h1 : ((k, v).1 == k') = false := beq_eq_false_iff_ne.mpr hne.symm
      have h2 : (q.1 == k') = false := by
        rw [beq_iff_eq] at hqk
        rw [hqk]
        exact beq_eq_false_iff_ne.mpr hne.symm
      simp only [List.map_cons, if_pos hqk, List.find?, h1, h2]
      exact ih
    · have hqk' : (q.1 == k) = false := by rwa [Bool.not_eq_true] at hqk
      simp only [List.map_cons, if_neg hqk, List.find?]
      cases hq : (q.1 == k') with
      | true => rfl
      | false => exact ih

theorem dictGet_dictSet_ne (m : List (String × String)) (k v k' : String)
    (hne : k' ≠ k) : dictGet (dictSet m k v) k' = dictGet m k' := by
  unfold dictSet
  by_cases hany : m.any (fun q => q.1 == k) = true
  · rw [hany]
    simp only [if_true]
    unfold dictGet
    rw [find?_map_replace m k v k' hne]
  · rw [Bool.not_eq_true] at hany
    rw [hany]
    simp only [Bool.false_eq_true, if_false]
    unfold dictGet
    rw [List.find?_append]
    have hkk : (k == k') = false := beq_eq_false_iff_ne.mpr hne.symm
    have h1 : List.find? (fun q => q.1 == k') [(k, v)] = none := by
      simp [List.find?, hkk]
    rw [h1, Option.or_none]

theorem dictGet_dictSet_self (m : List (String × String)) (k v : String) :
    dictGet (dictSet m k v) k = some v := by
  unfold dictSet
  by_cases hany : m.any (fun q => q.1 == k) = true
  · rw [hany]
    simp only [if_true]
    rw [List.any_eq_true] at hany
    obtain ⟨p, hp, hpk⟩ := hany
    unfold dictGet
    induction m with
    | nil => simp at hp
    | cons q qs ih =>
      by_cases hqk : (q.1 == k) = true
      · simp only [List.map_cons, if_pos hqk, List.find?, beq_self_eq_true]
        rfl
      · have hqk' : (q.1 == k) = false := by rwa [Bool.not_eq_true] at hqk
        rcases List.mem_cons.mp hp with rfl | hmem
        · rw [hqk'] at hpk
          exact absurd hpk (by simp)
        · rw [List.map_cons, if_neg hqk]
          simp only [List.find?, hqk']
          exact ih hmem
  · rw [Bool.not_eq_true] at hany
    rw [hany]
    simp only [Bool.false_eq_true, if_false]
    unfold dictGet
    rw [List.find?_append]
    have hm : List.find? (fun q => q.1 == k) m = none := by
      rw [List.find?_eq_none]
      intro p hp
      rw [List.any_eq_false] at hany
      simpa using hany p hp
    rw [hm]
    simp [List.find?]

theorem dictGet_foldl_of_absent (ps : List (String × String)) (k : String)
    (h : ∀ p ∈ ps, p.1 ≠ k) :
    ∀ m, dictGet (ps.foldl (fun m p => dictSet m p.1 p.2) m) k = dictGet m k := by
  induction ps with
  | nil => intro m; rfl
  | cons p rest ih =>
    intro m
    simp only [List.foldl_cons]
    rw [ih (fun q hq => h q (by simp [hq]))]
    exact dictGet_dictSet_ne m p.1 p.2 k (fun hc => (h p (by simp)) hc.symm)

theorem foldl_dictSet_fresh (ps : List (String × String)) :
    ∀ m, (ps.map Prod.fst).Nodup → (∀ p ∈ ps, ∀ q ∈ m, q.1 ≠ p.1) →
    ps.foldl (fun m p => dictSet m p.1 p.2) m = m ++ ps := by
  induction ps with
  | nil => intro m _ _; simp
  | cons p rest ih =>
    intro m hnd hfresh
    simp only [List.foldl_cons]
    rw [dictSet_of_fresh m p.1 p.2 (fun q hq => hfresh p (by simp) q hq)]
    rw [List.map_cons, List.nodup_cons] at hnd
    rw [ih (m ++ [(p.1, p.2)]) hnd.2 ?_]
    · simp
    · intro r hr q hq
      rcases List.mem_append.mp hq with hq1 | hq2
      · exact hfresh r (by simp [hr]) q hq1
      · have : q = (p.1, p.2) := by simpa using hq2
        subst this
        intro hcontra
        exact hnd.1 (by rw [hcontra]; exact List.mem_map_of_mem Prod.fst hr)

theorem dictGet_of_mem_nodup (ps : List (String × String)) (k v : String)
    (h : (k, v) ∈ ps) (hnd : (ps.map Prod.fst).Nodup) : dictGet ps k = some v := by
  induction ps with
  | nil => simp at h
  | cons q qs ih =>
    rw [List.map_cons, List.nodup_cons] at hnd
    rcases List.mem_cons.mp h with rfl | hmem
    · unfold dictGet
      rw [List.find?_cons_of_pos _ (by simp)]
      rfl
    · have hq : q.1 ≠ k := by
        intro hcontra
        exact hnd.1 (by rw [hcontra]; exact List.mem_map_of_mem Prod.fst hmem)
      unfold dictGet
      rw [List.find?_cons_of_neg _ (by simp [hq])]
      exact ih hmem hnd.2

theorem tag_mk (t : String) (a : List (String × String)) (x : Option String)
    (cs : List Element) : (Element.mk t a x cs).tag = t := rfl

theorem attrib_mk (t : String) (a : List (String × String)) (x : Option String)
    (cs : List Element) : (Element.mk t a x cs).attrib = a := rfl

theorem text_mk (t : String) (a : List (String × String)) (x : Option String)
    (cs : List Element) : (Element.mk t a x cs).text = x := rfl

theorem children_mk (t : String) (a : List (String × String)) (x : Option String)
    (cs : List Element) : (Element.mk t a x cs).children = cs := rfl

theorem upsertChannel_tag (env : UpdEnv) (attrs : List (String × String)) (ch : Element) :
    (upsertChannel env attrs ch).tag = ch.tag := rfl

theorem buildItem_tag (env : UpdEnv) (attrs : List (String × String)) :
    (buildItem env attrs).tag = "item" := rfl

theorem runUpdate_missing_eq (env : UpdEnv) (attrs : List (String × String)) :
    runUpdate env attrs .missing =
      (none, .mk "rss" [("version", "2.0")] none
        [upsertChannel env attrs (newChannelEl env.channel)]) := rfl

theorem runUpdate_parsed_with_channel (env : UpdEnv) (attrs : List (String × String))
    (root ch : Element) (h : etFindChild root "channel" = some ch) :
    ∃ l1 l2, root.children = l1 ++ ch :: l2 ∧
      (∀ x ∈ l1, (x.tag == "channel") = false) ∧
      (runUpdate env attrs (.parsed root)).2 =
        .mk root.tag root.attrib root.text (l1 ++ upsertChannel env attrs ch :: l2) := by
  obtain ⟨l1, l2, hl, hfail, hmap⟩ := find?_mapFirst_decomp (fun c => c.tag == "channel")
    (upsertChannel env attrs) root.children ch h
  refine ⟨l1, l2, hl, hfail, ?_⟩
  have hs : (etFindChild root "channel").isSome = true := by rw [h]; rfl
  unfold runUpdate loadRoot
  simp only [hs, if_true, hmap]

theorem runUpdate_parsed_no_channel (env : UpdEnv) (attrs : List (String × String))
    (root : Element) (h : etFindChild root "channel" = none) :
    (runUpdate env attrs (.parsed root)).2 =
      .mk root.tag root.attrib root.text
        (root.children ++ [upsertChannel env attrs (newChannelEl env.channel)]) := by
  have hs : (etFindChild root "channel").isSome = false := by rw [h]; rfl
  have hfail : ∀ x ∈ root.children, (fun c => c.tag == "channel") x = false := by
    intro x hx
    unfold etFindChild at h
    rw [List.find?_eq_none] at h
    simpa using h x hx
  have hnew : ((newChannelEl env.channel).tag == "channel") = true := by
    simp [newChannelEl, tag_mk]
  have hmap : mapFirst (fun c => c.tag == "channel") (upsertChannel env attrs)
      (root.children ++ [newChannelEl env.channel]) =
      root.children ++ [upsertChannel env attrs (newChannelEl env.channel)] := by
    rw [mapFirst_append_of_fail _ _ _ _ hfail]
    simp [mapFirst, hnew]
  unfold runUpdate loadRoot
  simp only [hs, Bool.false_eq_true, if_false, tag_mk, attrib_mk, text_mk, children_mk]
  rw [hmap]

theorem etFindChild_upsert_out (env : UpdEnv) (attrs : List (String × String))
    (root ch : Element) (h : etFindChild root "channel" = some ch) :
    etFindChild (runUpdate env attrs (.parsed root)).2 "channel" =
      some (upsertChannel env attrs ch) := by
  obtain ⟨l1, l2, _, hfail, hout⟩ := runUpdate_parsed_with_channel env attrs root ch h
  have hch : (ch.tag == "channel") = true := by
    unfold etFindChild at h
    have := List.find?_some h
    simpa using this
  rw [hout]
  unfold etFindChild
  simp only [Element.children]
  rw [List.find?_append]
  have h1 : List.find? (fun c => c.tag == "channel") l1 = none := by
    rw [List.find?_eq_none]
    intro x hx
    simp [hfail x hx]
  rw [h1]
  simp only [Option.none_or, List.find?]
  rw [upsertChannel_tag] at *
  simp [hch]

theorem etFindAll_upsertChannel (env : UpdEnv) (attrs : List (String × String))
    (ch : Element) :
    etFindAll (upsertChannel env attrs ch) "item" =
      (removeSameBuildItems env.build ch.children).filter (fun c => c.tag == "item") ++
        [buildItem env attrs] := by
  unfold upsertChannel etFindAll
  simp only [Element.children]
  rw [List.filter_append]
  have hbi : ((buildItem env attrs).tag == "item") = true := by
    rw [buildItem_tag]
    exact beq_self_eq_true _
  simp [List.filter, hbi]

theorem etFindAll_upsert_of_no_items (env : UpdEnv) (attrs : List (String × String))
    (ch : Element) (h : etFindAll ch "item" = []) :
    etFindAll (upsertChannel env attrs ch) "item" = [buildItem env attrs] := by
  rw [etFindAll_upsertChannel]
  have hnone : ∀ c ∈ ch.children, (c.tag == "item") = false := by
    intro c hc
    unfold etFindAll at h
    rw [List.filter_eq_nil_iff] at h
    simpa using h c hc
  have : (removeSameBuildItems env.build ch.children).filter
      (fun c => c.tag == "item") = [] := by
    rw [List.filter_eq_nil_iff]
    intro c hc
    have hcmem : c ∈ ch.children := List.mem_of_mem_filter hc
    simp [hnone c hcmem]
  rw [this]
  rfl

theorem versionEl_mem_buildItem (env : UpdEnv) (attrs : List (String × String)) :
    (Element.mk (sparkle_tag "version") [] (some env.build) []) ∈
      (buildItem env attrs).children := by
  unfold buildItem
  simp only [Element.children]
  by_cases h : (env.commit == "") = true <;> simp [h]

theorem buildItem_mem_upsert (env : UpdEnv) (attrs : List (String × String))
    (ch : Element) : buildItem env attrs ∈ (upsertChannel env attrs ch).children := by
  unfold upsertChannel
  simp [Element.children]

theorem hasSparkleNamespace_out (root ch' : Element) (env : UpdEnv)
    (attrs : List (String × String)) (hch : ch' ∈ root.children)
    (hbi : buildItem env attrs ∈ ch'.children) :
    hasSparkleNamespace root = true := by
  apply hasSparkleNamespace_of_mem root (.mk (sparkle_tag "version") [] (some env.build) [])
  · have h2 : (Element.mk (sparkle_tag "version") [] (some env.build) []) ∈
        elemsIn (buildItem env attrs) :=
      mem_elemsIn_of_child _ _ (versionEl_mem_buildItem env attrs) _ (self_mem_elemsIn _)
    exact mem_elemsIn_of_child root ch' hch _ (mem_elemsIn_of_child ch' _ hbi _ h2)
  · simpa [Element.tag] using pyStartsWith_sparkle_tag "version"

theorem weekdayAbbrev_length (t : UTCTime) : (weekdayAbbrev t).length = 3 := by
  unfold weekdayAbbrev
  split <;> rfl

theorem monthAbbrev_length (m : Nat) : (monthAbbrev m).length = 3 := by
  unfold monthAbbrev
  split <;> rfl

theorem pad2_length (n : Nat) : (pad2 n).length = 2 := rfl

theorem pad4_length (n : Nat) : (pad4 n).length = 4 := rfl

/-! ### The claims -/

/-- C1: the spec demands at-most-one-item-per-build — upserting a build
that is already present must replace the prior item, leaving the item count
unchanged.  The code does the opposite: on an existing appcast whose
channel holds one item for build `42` (with the leaf `sparkle:version`
element the Updater itself writes), running the Updater for build `42`
leaves the old item in place and appends a second one, so the output
channel carries two items whose `sparkle:version` text is `42` (the
`or`-chained `find_sparkle_child` treats the childless version element as
falsy and ends in a literal-tag lookup that never matches, so the removal
loop removes nothing). -/
theorem upsert_existing_build_duplicates_item :
    ((etFindChild exRoot42 "channel").map
      (fun ch => ((etFindAll ch "item").filter
        (fun it => itemBuildText it == some "42")).length)) = some 1 ∧
    ((etFindChild (runUpdate exEnv exAttrs (.parsed exRoot42)).2 "channel").map
      (fun ch => ((etFindAll ch "item").filter
        (fun it => itemBuildText it == some "42")).length)) = some 2 :=
  ⟨rfl, rfl⟩

/-- C2 (counterexample): the round-trip claim quantifies over every
attribute mapping containing non-empty `sparkle:edSignature` and `length`
entries; the mapping `{"sparkle:edSignature": "abc", "length": "5",
"url": ""}` satisfies that premise, yet its `url` entry overwrites the
enclosure's `url` attribute, so validating the Updater's output with the
matching `--require-build`/`--require-url` filters exits 1. -/
theorem roundtrip_fails_when_attrs_override_url :
    validateAppcast (.parsed (runUpdate exEnv exAttrsWithUrl .missing).2)
      (some "42") (some "https://example.com/app-42.dmg") =
      .error "Appcast missing enclosure URL https://example.com/app-42.dmg" := rfl

/-- C4 (counterexample): the `pubDate` format `%a, %d %b %Y %H:%M:%S %z`
is not sortable: 2024-01-01 (a Monday) precedes 2024-01-05 (a Friday), yet
`"Mon, 01 Jan 2024 ..."` is lexicographically greater than
`"Fri, 05 Jan 2024 ..."` because the string starts with the weekday name. -/
theorem pubdate_format_not_sortable :
    toSeconds ⟨2024, 1, 1, 0, 0, 0⟩ ≤ toSeconds ⟨2024, 1, 5, 0, 0, 0⟩ ∧
    strLexLe (formatPubDate ⟨2024, 1, 1, 0, 0, 0⟩)
      (formatPubDate ⟨2024, 1, 5, 0, 0, 0⟩) = false :=
  ⟨by decide, by decide⟩

/-- C4 (amended): the publication timestamp the Updater writes into each
new item's `pubDate` element is in a fixed textual format — the RFC-2822
style `Www, DD Mon YYYY HH:MM:SS +0000`, always 31 characters — but that
format is not lexicographically sortable. -/
theorem pubdate_fixed_format (env : UpdEnv) (attrs : List (String × String)) :
    (etFindChild (buildItem env attrs) "pubDate").bind Element.text =
      some (formatPubDate env.now) ∧
    (formatPubDate env.now).length = 31 := by
  constructor
  · rfl
  · have h1 := weekdayAbbrev_length env.now
    have h2 := monthAbbrev_length env.now.month
    have h3 := pad2_length env.now.day
    have h4 := pad4_length env.now.year
    have h5 := pad2_length env.now.hour
    have h6 := pad2_length env.now.minute
    have h7 := pad2_length env.now.second
    simp only [formatPubDate, String.length_append, h1, h2, h3, h4, h5, h6, h7]
    norm_num [String.length]

/-- C5: when the existing appcast file is present but malformed, the
Updater does not abort: it emits exactly the parse warning on stderr and
otherwise behaves as if the file were absent, continuing from a freshly
created `rss` root with version `2.0`. -/
theorem parse_failure_warns_and_continues (env : UpdEnv)
    (attrs : List (String × String)) (m : String) :
    (runUpdate env attrs (.parseFailure m)).1 =
      some ("Warning: failed to parse existing appcast (" ++
        env.appcast_path ++ "): " ++ m) ∧
    (runUpdate env attrs (.parseFailure m)).2 = (runUpdate env attrs .missing).2 ∧
    (runUpdate env attrs (.parseFailure m)).2.tag = "rss" ∧
    (runUpdate env attrs (.parseFailure m)).2.attrib = [("version", "2.0")] :=
  ⟨rfl, rfl, rfl, rfl⟩

/-- C7 (counterexample): the attribute-blob parser splits on single spaces
only, not on general whitespace: the newline-separated blob
`"a=1\nb=2"` — whitespace-separated tokens `a=1` and `b=2` with unquoted
values — parses to a mapping sending `a` to `"1\nb=2"` and containing no
`b` key at all, instead of `{a: "1", b: "2"}`. -/
theorem attr_blob_newline_not_split :
    parseSignAttrs "a=1\nb=2" = .ok [("a", "1\nb=2")] ∧
    (match parseSignAttrs "a=1\nb=2" with
     | .ok m => dictGet m "b"
     | .error _ => none) = none :=
  ⟨rfl, rfl⟩

/-- C8 (counterexample): the enclosure does not carry only the `url`
attribute plus one attribute per mapping entry — the Updater always also
sets a fixed `type` attribute of `application/octet-stream`, as the empty
mapping shows. -/
theorem enclosure_carries_fixed_type_attribute :
    (buildEnclosure "https://example.com/app-42.dmg" []).attrib =
      [("url", "https://example.com/app-42.dmg"),
        ("type", "application/octet-stream")] ∧
    ¬ (buildEnclosure "https://example.com/app-42.dmg" []).attrib =
      [("url", "https://example.com/app-42.dmg")] :=
  ⟨rfl, by decide⟩

/-- C10: an empty-string `--require-build` or `--require-url` is falsy in
the Validator's `if args.require_build:` / `if args.require_url:` guards,
so the corresponding existence check is skipped exactly as when the flag
is absent — the Validator never demands an item with an empty build or an
empty enclosure URL. -/
theorem empty_require_filters_are_skipped (feed : FeedInput) (rb ru : Option String) :
    validateAppcast feed (some "") ru = validateAppcast feed none ru ∧
    validateAppcast feed rb (some "") = validateAppcast feed rb none :=
  ⟨by cases feed <;> rfl, by cases feed <;> rfl⟩

theorem mem_of_etFindChild (e c : Element) (t : String)
    (h : etFindChild e t = some c) : c ∈ e.children := by
  unfold etFindChild at h
  exact List.mem_of_find?_eq_some h

theorem etFindChild_buildItem_enclosure (env : UpdEnv) (attrs : List (String × String)) :
    etFindChild (buildItem env attrs) "enclosure" =
      some (buildEnclosure env.dmg_url attrs) := by
  unfold buildItem etFindChild
  simp only [children_mk]
  by_cases h : (env.commit == "") = true
  · simp only [h, Bool.not_true]
    rfl
  · have h' : (env.commit == "") = false := by rwa [Bool.not_eq_true] at h
    simp only [h', Bool.not_false]
    rfl

theorem dictGet_foldl_tk_of_absent (ps : List (String × String)) (k : String)
    (h : ∀ p ∈ ps, translateKey p.1 ≠ k) :
    ∀ m, dictGet (ps.foldl (fun m p => dictSet m (translateKey p.1) p.2) m) k =
      dictGet m k := by
  induction ps with
  | nil => intro m; rfl
  | cons p rest ih =>
    intro m
    simp only [List.foldl_cons]
    rw [ih (fun q hq => h q (by simp [hq]))]
    exact dictGet_dictSet_ne m (translateKey p.1) p.2 k
      (fun hc => (h p (by simp)) hc.symm)

theorem dictGet_foldl_tk_mem (attrs : List (String × String)) (k v : String)
    (hmem : (k, v) ∈ attrs)
    (hnd : (attrs.map (fun p => translateKey p.1)).Nodup) :
    ∀ m, dictGet (attrs.foldl (fun m p => dictSet m (translateKey p.1) p.2) m)
      (translateKey k) = some v := by
  obtain ⟨l1, l2, rfl⟩ := List.append_of_mem hmem
  intro m
  rw [List.foldl_append, List.foldl_cons]
  have habs : ∀ p ∈ l2, translateKey p.1 ≠ translateKey k := by
    rw [List.map_append, List.map_cons] at hnd
    have h2 := hnd.of_append_right
    rw [List.nodup_cons] at h2
    intro p hp hcontra
    exact h2.1 (hcontra ▸ List.mem_map_of_mem _ hp)
  rw [dictGet_foldl_tk_of_absent l2 (translateKey k) habs]
  exact dictGet_dictSet_self _ _ _

/-- The shape of the Updater's output when started from a missing feed or
from a parsed document whose (first) channel has no items: the output's
first channel is an upserted channel holding the new item as its only
item. -/
theorem runUpdate_empty_feed_shape (env : UpdEnv) (attrs : List (String × String))
    (feed : FeedInput)
    (hfeed : feed = .missing ∨ ∃ root, feed = .parsed root ∧
      ∀ ch, etFindChild root "channel" = some ch → etFindAll ch "item" = []) :
    ∃ ch, etFindChild (runUpdate env attrs feed).2 "channel" = some ch ∧
      buildItem env attrs ∈ ch.children ∧
      etFindAll ch "item" = [buildItem env attrs] := by
  have hnewitems : ∀ c : String, etFindAll (newChannelEl c) "item" = [] := fun _ => rfl
  have hnewtag : ∀ c : String, ((newChannelEl c).tag == "channel") = true := by
    intro c
    simp [newChannelEl, tag_mk]
  rcases hfeed with rfl | ⟨root, rfl, hroot⟩
  · refine ⟨upsertChannel env attrs (newChannelEl env.channel), ?_, ?_, ?_⟩
    · rw [runUpdate_missing_eq]
      unfold etFindChild
      simp only [children_mk, List.find?]
      rw [upsertChannel_tag]
      simp [hnewtag env.channel]
    · exact buildItem_mem_upsert env attrs _
    · exact etFindAll_upsert_of_no_items env attrs _ (hnewitems env.channel)
  · cases hch : etFindChild root "channel" with
    | some ch =>
      refine ⟨upsertChannel env attrs ch, etFindChild_upsert_out env attrs root ch hch, ?_, ?_⟩
      · exact buildItem_mem_upsert env attrs _
      · exact etFindAll_upsert_of_no_items env attrs _ (hroot ch hch)
    | none =>
      refine ⟨upsertChannel env attrs (newChannelEl env.channel), ?_, ?_, ?_⟩
      · rw [runUpdate_parsed_no_channel env attrs root hch]
        unfold etFindChild
        simp only [children_mk]
        rw [List.find?_append]
        have h1 : List.find? (fun c => c.tag == "channel") root.children = none := by
          unfold etFindChild at hch
          exact hch
        rw [h1]
        simp only [Option.none_or, List.find?]
        rw [upsertChannel_tag]
        simp [hnewtag env.channel]
      · exact buildItem_mem_upsert env attrs _
      · exact etFindAll_upsert_of_no_items env attrs _ (hnewitems env.channel)

/-- C6: running the Feed Updater against a missing feed document, or one
whose channel has no items, yields a document whose channel contains
exactly one item, and that item's `sparkle:version` text equals the given
build identifier. -/
theorem upsert_into_empty_yields_single_item (env : UpdEnv)
    (attrs : List (String × String)) (feed : FeedInput)
    (hfeed : feed = .missing ∨ ∃ root, feed = .parsed root ∧
      ∀ ch, etFindChild root "channel" = some ch → etFindAll ch "item" = []) :
    ∃ ch, etFindChild (runUpdate env attrs feed).2 "channel" = some ch ∧
      ∃ it, etFindAll ch "item" = [it] ∧ itemBuildText it = some env.build := by
  obtain ⟨ch, h1, _, h3⟩ := runUpdate_empty_feed_shape env attrs feed hfeed
  exact ⟨ch, h1, buildItem env attrs, h3, rfl⟩

/-- C6 (witness): the theorem at the typical environment, starting from a
missing feed. -/
theorem upsert_into_empty_yields_single_item_witness :
    ∃ ch, etFindChild (runUpdate exEnv exAttrs .missing).2 "channel" = some ch ∧
      ∃ it, etFindAll ch "item" = [it] ∧ itemBuildText it = some exEnv.build :=
  upsert_into_empty_yields_single_item exEnv exAttrs .missing (Or.inl rfl)

/-- C8 (amended): provided the mapping's translated attribute names are
pairwise distinct and avoid the fixed `url` and `type` names, the new
item's enclosure carries the `url` attribute (the download URL), the fixed
`type` attribute `application/octet-stream`, plus exactly one attribute
per mapping entry: a `sparkle:`-prefixed key becomes the namespace-
qualified attribute named by the key's remainder, any other key a plain
attribute of the same name, each carrying the mapped value. -/
theorem enclosure_attributes_characterized (env : UpdEnv)
    (attrs : List (String × String))
    (hnd : (attrs.map (fun p => translateKey p.1)).Nodup)
    (hu : ∀ p ∈ attrs, translateKey p.1 ≠ "url")
    (ht : ∀ p ∈ attrs, translateKey p.1 ≠ "type") :
    etFindChild (buildItem env attrs) "enclosure" =
      some (buildEnclosure env.dmg_url attrs) ∧
    (buildEnclosure env.dmg_url attrs).attrib =
      ("url", env.dmg_url) :: ("type", "application/octet-stream") ::
        attrs.map (fun p => (translateKey p.1, p.2)) := by
  refine ⟨etFindChild_buildItem_enclosure env attrs, ?_⟩
  unfold buildEnclosure
  rw [attrib_mk]
  have hbase : dictSet (dictSet [] "url" env.dmg_url) "type"
      "application/octet-stream" =
      [("url", env.dmg_url), ("type", "application/octet-stream")] := rfl
  rw [hbase]
  have hstep : (attrs.map (fun p => (translateKey p.1, p.2))).foldl
      (fun m q => dictSet m q.1 q.2)
      [("url", env.dmg_url), ("type", "application/octet-stream")] =
      attrs.foldl (fun m p => dictSet m (translateKey p.1) p.2)
      [("url", env.dmg_url), ("type", "application/octet-stream")] := by
    rw [List.foldl_map]
  rw [← hstep]
  rw [foldl_dictSet_fresh]
  · simp
  · simpa [List.map_map, Function.comp] using hnd
  · intro p hp q hq
    obtain ⟨a, ha, rfl⟩ := List.mem_map.mp hp
    rcases List.mem_cons.mp hq with rfl | hq2
    · exact fun hc => (hu a ha) hc.symm
    · have : q = ("type", "application/octet-stream") := by simpa using hq2
      subst this
      exact fun hc => (ht a ha) hc.symm

/-- C8 (amended, witness): the characterization at a typical mapping with
an `edSignature` and a `length` entry. -/
theorem enclosure_attributes_characterized_witness :
    etFindChild (buildItem exEnv exAttrs) "enclosure" =
      some (buildEnclosure exEnv.dmg_url exAttrs) ∧
    (buildEnclosure exEnv.dmg_url exAttrs).attrib =
      ("url", exEnv.dmg_url) :: ("type", "application/octet-stream") ::
        exAttrs.map (fun p => (translateKey p.1, p.2)) :=
  enclosure_attributes_characterized exEnv exAttrs (by decide) (by decide) (by decide)

/-- C2 (amended): starting from a missing feed or one whose channel has no
items, with a non-blank build, a non-blank display version, a non-empty
download URL, and an attribute mapping carrying non-empty
`sparkle:edSignature` and `length` entries — and whose translated
attribute names are pairwise distinct and do not include `url` — running
the Validator on the Updater's output with `--require-build` and
`--require-url` equal to those inputs exits 0. -/
theorem roundtrip_validates_updater_output (env : UpdEnv)
    (attrs : List (String × String)) (feed : FeedInput)
    (hfeed : feed = .missing ∨ ∃ root, feed = .parsed root ∧
      ∀ ch, etFindChild root "channel" = some ch → etFindAll ch "item" = [])
    (hb : pyStrip env.build ≠ "")
    (hv : pyStrip env.version ≠ "")
    (hu : env.dmg_url ≠ "")
    (hsig : ∃ s, ("sparkle:edSignature", s) ∈ attrs ∧ s ≠ "")
    (hlen : ∃ l, ("length", l) ∈ attrs ∧ l ≠ "")
    (hnd : (attrs.map (fun p => translateKey p.1)).Nodup)
    (hnu : ∀ p ∈ attrs, translateKey p.1 ≠ "url") :
    validateAppcast (.parsed (runUpdate env attrs feed).2)
      (some env.build) (some env.dmg_url) = .ok () := by
  obtain ⟨ch, hch, hbi, hitems⟩ := runUpdate_empty_feed_shape env attrs feed hfeed
  obtain ⟨s, hsmem, hsne⟩ := hsig
  obtain ⟨l, hlmem, hlne⟩ := hlen
  have hfv : etFindChild (buildItem env attrs) (sparkle_tag "version") =
      some (.mk (sparkle_tag "version") [] (some env.build) []) := rfl
  have hfs : etFindChild (buildItem env attrs) (sparkle_tag "shortVersionString") =
      some (.mk (sparkle_tag "shortVersionString") [] (some env.version) []) := rfl
  have hfe := etFindChild_buildItem_enclosure env attrs
  have hurl : dictGet (buildEnclosure env.dmg_url attrs).attrib "url" =
      some env.dmg_url := by
    unfold buildEnclosure
    rw [attrib_mk]
    rw [dictGet_foldl_tk_of_absent attrs "url" hnu]
    rfl
  have hsig2 : dictGet (buildEnclosure env.dmg_url attrs).attrib
      (sparkle_tag "edSignature") = some s := by
    unfold buildEnclosure
    rw [attrib_mk]
    have htk : translateKey "sparkle:edSignature" = sparkle_tag "edSignature" := rfl
    rw [← htk]
    exact dictGet_foldl_tk_mem attrs _ s hsmem hnd _
  have hlen2 : dictGet (buildEnclosure env.dmg_url attrs).attrib "length" = some l := by
    unfold buildEnclosure
    rw [attrib_mk]
    have htk : translateKey "length" = "length" := rfl
    rw [← htk]
    exact dictGet_foldl_tk_mem attrs _ l hlmem hnd _
  have hNS : hasSparkleNamespace (runUpdate env attrs feed).2 = true :=
    hasSparkleNamespace_out _ ch env attrs (mem_of_etFindChild _ _ _ hch) hbi
  have hbne : (env.build == "") = false := by
    rw [beq_eq_false_iff_ne]
    intro hc
    exact hb (by rw [hc]; rfl)
  have hune : (env.dmg_url == "") = false := beq_eq_false_iff_ne.mpr hu
  have hbnb : (pyStrip env.build == "") = false := beq_eq_false_iff_ne.mpr hb
  have hvnb : (pyStrip env.version == "") = false := beq_eq_false_iff_ne.mpr hv
  have hsne' : (s == "") = false := beq_eq_false_iff_ne.mpr hsne
  have hlne' : (l == "") = false := beq_eq_false_iff_ne.mpr hlne
  have hcheck : checkItem (buildItem env attrs) = .ok () := by
    unfold checkItem
    rw [val_find_eq, val_find_eq, hfv, hfs, hfe]
    simp only [nonBlankText, text_mk, Option.getD_some, hbnb, hvnb, Bool.not_false,
      Bool.not_true, Bool.false_eq_true, if_false]
    simp only [Element.getAttr, hurl, hsig2, hlen2, pyStrTruthy, hune, hsne', hlne',
      pyOrStr, Bool.not_false, Bool.not_true, Bool.false_eq_true, if_false]
    simp only [if_true, hsne', hlne', Bool.not_false, Bool.not_true,
      Bool.false_eq_true, if_false]
  simp only [validateAppcast]
  rw [hNS, hch]
  simp only [Bool.not_true, Bool.false_eq_true, if_false]
  rw [hitems]
  simp only [List.isEmpty_cons, List.any_cons, List.any_nil]
  rw [val_find_eq, hfv]
  simp only [hfe]
  simp only [pyStrTruthy, hbne, hune, Bool.not_false, Option.isSome_some,
    Option.bind_some, text_mk, Element.getAttr, hurl, beq_self_eq_true,
    Bool.and_true, Bool.true_and, Bool.or_false, Bool.not_true, Bool.false_eq_true,
    if_false, checkItems, hcheck]
  simp only [Option.some_bind, text_mk, Element.getAttr, hurl, beq_self_eq_true,
    Bool.not_true, Bool.false_eq_true, if_false]

/-- C2 (amended, witness): the spec's own example — build `42`, version
`1.2.0`, the example download URL, and a mapping with an `edSignature` and
a `length` — validates with matching filters. -/
theorem roundtrip_validates_updater_output_witness :
    validateAppcast (.parsed (runUpdate exEnv exAttrs .missing).2)
      (some exEnv.build) (some exEnv.dmg_url) = .ok () :=
  roundtrip_validates_updater_output exEnv exAttrs .missing (Or.inl rfl)
    (by decide) (by decide) (by decide)
    ⟨"abc", by decide, by decide⟩ ⟨"5", by decide, by decide⟩
    (by decide) (by decide)

theorem guard_ok_iff (b : Bool) (e : String) (x : Except String Unit) :
    (if (!b) = true then Except.error e else x) = .ok () ↔ b = true ∧ x = .ok () := by
  cases b <;> simp

theorem nonBlankText_iff (x : Option Element) :
    nonBlankText x = true ↔
      ∃ el, x = some el ∧ pyStrip (el.text.getD "") ≠ "" := by
  cases x <;> simp [nonBlankText]

theorem build_any_iff (L : List Element) (b : String) :
    (L.any (fun it => (val_find_sparkle_child it "version").isSome &&
      ((val_find_sparkle_child it "version").bind Element.text == some b))) = true ↔
    ∃ it ∈ L, itemBuildText it = some b := by
  rw [List.any_eq_true]
  constructor
  · rintro ⟨it, hit, hf⟩
    refine ⟨it, hit, ?_⟩
    rw [val_find_eq] at hf
    unfold itemBuildText
    cases h : etFindChild it (sparkle_tag "version") with
    | none => rw [h] at hf; simp at hf
    | some v =>
      rw [h] at hf
      simp only [Option.isSome_some, Bool.true_and, Option.some_bind] at hf
      simpa using hf
  · rintro ⟨it, hit, hb⟩
    refine ⟨it, hit, ?_⟩
    rw [val_find_eq]
    unfold itemBuildText at hb
    cases h : etFindChild it (sparkle_tag "version") with
    | none => rw [h] at hb; simp at hb
    | some v =>
      rw [h] at hb
      simp only [Option.some_bind] at hb
      simp [hb]

theorem url_any_iff (L : List Element) (u : String) :
    (L.any (fun it => (etFindChild it "enclosure").isSome &&
      ((etFindChild it "enclosure").bind (fun e => e.getAttr "url") == some u))) = true ↔
    ∃ it ∈ L, ∃ enc, etFindChild it "enclosure" = some enc ∧
      dictGet enc.attrib "url" = some u := by
  rw [List.any_eq_true]
  constructor
  · rintro ⟨it, hit, hf⟩
    refine ⟨it, hit, ?_⟩
    cases h : etFindChild it "enclosure" with
    | none => rw [h] at hf; simp at hf
    | some enc =>
      rw [h] at hf
      simp only [Option.isSome_some, Bool.true_and, Option.some_bind] at hf
      exact ⟨enc, rfl, by simpa [Element.getAttr] using hf⟩
  · rintro ⟨it, hit, enc, henc, hurl⟩
    refine ⟨it, hit, ?_⟩
    rw [henc]
    simp [Element.getAttr, hurl]

theorem checkItem_ok_iff (it : Element) :
    checkItem it = .ok () ↔
      (∃ v, etFindChild it (sparkle_tag "version") = some v ∧
        pyStrip (v.text.getD "") ≠ "") ∧
      (∃ v, etFindChild it (sparkle_tag "shortVersionString") = some v ∧
        pyStrip (v.text.getD "") ≠ "") ∧
      ∃ enc, etFindChild it "enclosure" = some enc ∧
        (∃ u, dictGet enc.attrib "url" = some u ∧ u ≠ "") ∧
        ((∃ s, dictGet enc.attrib (sparkle_tag "edSignature") = some s ∧ s ≠ "") ∨
          (∃ s, dictGet enc.attrib "sparkle:edSignature" = some s ∧ s ≠ "")) ∧
        (∃ l, dictGet enc.attrib "length" = some l ∧ l ≠ "") := by
  unfold checkItem
  rw [val_find_eq, val_find_eq]
  simp only [guard_ok_iff]
  cases he : etFindChild it "enclosure" with
  | none => simp [nonBlankText_iff]
  | some enc =>
    simp only [Option.some.injEq, guard_ok_iff]
    simp [nonBlankText_iff, pyStrTruthy_iff, pyStrTruthy_pyOrStr, Bool.or_eq_true,
      Element.getAttr, and_assoc]

/-- C3: the Feed Validator exits 0 exactly when the spec's conditions all
hold: the file exists and parses, the Sparkle namespace occurs as an
element tag or attribute key, a channel exists, at least one item exists,
a non-empty required build (resp. URL) is matched exactly by some item's
`sparkle:version` text (resp. enclosure `url`), and every item carries
non-blank `sparkle:version`/`sparkle:shortVersionString` texts and an
enclosure with non-empty `url`, `sparkle:edSignature` and `length`
attributes; on the first failing condition (in source order) it prints a
diagnostic to stderr and exits 1 (the model's `.error msg`). -/
theorem validator_exit_zero_iff_spec_conditions (feed : FeedInput)
    (rb ru : Option String) :
    validateAppcast feed rb ru = .ok () ↔ specValidatorOk feed rb ru := by
  cases feed with
  | missing => simp [validateAppcast, specValidatorOk]
  | parseFailure m => simp [validateAppcast, specValidatorOk]
  | parsed root =>
    simp only [validateAppcast, specValidatorOk, FeedInput.parsed.injEq,
      exists_eq_left']
    by_cases hNS : hasSparkleNamespace root = true
    case neg =>
      have hNS' : hasSparkleNamespace root = false := by
        rwa [Bool.not_eq_true] at hNS
      simp [hNS']
    case pos =>
      simp only [hNS, Bool.not_true, Bool.false_eq_true, if_false, true_and]
      cases hch : etFindChild root "channel" with
      | none => simp
      | some ch =>
        simp only [Option.some.injEq, exists_eq_left']
        by_cases hL : (etFindAll ch "item").isEmpty = true
        · rw [List.isEmpty_iff] at hL
          simp [hL]
        · have hL' : (etFindAll ch "item").isEmpty = false := by
            rwa [Bool.not_eq_true] at hL
          have hne : etFindAll ch "item" ≠ [] := by
            intro hc
            rw [hc] at hL'
            simp at hL'
          simp only [hL', Bool.false_eq_true, if_false, hne, Ne, not_false_iff,
            true_and]
          by_cases hrb : pyStrTruthy rb = true
          · obtain ⟨b, rfl, hbne⟩ := (pyStrTruthy_iff rb).mp hrb
            by_cases hany : (etFindAll ch "item").any (fun it =>
                (val_find_sparkle_child it "version").isSome &&
                ((val_find_sparkle_child it "version").bind Element.text ==
                  some b)) = true
            · have hex := (build_any_iff (etFindAll ch "item") b).mp hany
              simp only [hrb, hany, Bool.true_and, Bool.not_true,
                Bool.false_eq_true, if_false]
              by_cases hru : pyStrTruthy ru = true
              · obtain ⟨u, rfl, hune⟩ := (pyStrTruthy_iff ru).mp hru
                by_cases huany : (etFindAll ch "item").any (fun it =>
                    (etFindChild it "enclosure").isSome &&
                    ((etFindChild it "enclosure").bind (fun e => e.getAttr "url") ==
                      some u)) = true
                · have huex := (url_any_iff (etFindAll ch "item") u).mp huany
                  simp only [hru, huany, Bool.true_and, Bool.not_true,
                    Bool.false_eq_true, if_false]
                  rw [checkItems_ok_iff]
                  constructor
                  · intro h
                    exact ⟨fun _ => hex, fun _ => huex,
                      fun it hit => (checkItem_ok_iff it).mp (h it hit)⟩
                  · rintro ⟨-, -, h3⟩
                    intro it hit
                    exact (checkItem_ok_iff it).mpr (h3 it hit)
                · have huany' := huany
                  rw [Bool.not_eq_true] at huany'
                  simp only [hru, huany', Bool.true_and, Bool.not_false, if_true]
                  constructor
                  · intro hc
                    exact absurd hc (by simp)
                  · rintro ⟨-, hu, -⟩
                    exact absurd ((url_any_iff _ u).mpr (hu trivial)) huany
              · have hru' : pyStrTruthy ru = false := by
                  rwa [Bool.not_eq_true] at hru
                simp only [hru', Bool.false_and, Bool.not_false, if_false,
                  Bool.false_eq_true]
                rw [checkItems_ok_iff]
                constructor
                · intro h
                  exact ⟨fun _ => hex,
                    fun hcontra => hcontra.elim,
                    fun it hit => (checkItem_ok_iff it).mp (h it hit)⟩
                · rintro ⟨-, -, h3⟩
                  intro it hit
                  exact (checkItem_ok_iff it).mpr (h3 it hit)
            · have hany' := hany
              rw [Bool.not_eq_true] at hany'
              simp only [hrb, hany', Bool.true_and, Bool.not_false, if_true]
              constructor
              · intro hc
                exact absurd hc (by simp)
              · rintro ⟨h1, -⟩
                exact absurd ((build_any_iff _ b).mpr (h1 trivial)) hany
          · have hrb' : pyStrTruthy rb = false := by
              rwa [Bool.not_eq_true] at hrb
            simp only [hrb', Bool.false_and, Bool.not_false, if_false,
              Bool.false_eq_true]
            by_cases hru : pyStrTruthy ru = true
            · obtain ⟨u, rfl, hune⟩ := (pyStrTruthy_iff ru).mp hru
              by_cases huany : (etFindAll ch "item").any (fun it =>
                  (etFindChild it "enclosure").isSome &&
                  ((etFindChild it "enclosure").bind (fun e => e.getAttr "url") ==
                    some u)) = true
              · have huex := (url_any_iff (etFindAll ch "item") u).mp huany
                simp only [hru, huany, Bool.true_and, Bool.not_true,
                  Bool.false_eq_true, if_false]
                rw [checkItems_ok_iff]
                constructor
                · intro h
                  exact ⟨fun hcontra => hcontra.elim,
                    fun _ => huex,
                    fun it hit => (checkItem_ok_iff it).mp (h it hit)⟩
                · rintro ⟨-, -, h3⟩
                  intro it hit
                  exact (checkItem_ok_iff it).mpr (h3 it hit)
              · have huany' := huany
                rw [Bool.not_eq_true] at huany'
                simp only [hru, huany', Bool.true_and, Bool.not_false, if_true]
                constructor
                · intro hc
                  exact absurd hc (by simp)
                · rintro ⟨-, hu, -⟩
                  exact absurd ((url_any_iff _ u).mpr (hu trivial)) huany
            · have hru' : pyStrTruthy ru = false := by
                rwa [Bool.not_eq_true] at hru
              simp only [hru', Bool.false_and, Bool.not_false, if_false,
                Bool.false_eq_true]
              rw [checkItems_ok_iff]
              constructor
              · intro h
                exact ⟨fun hcontra => hcontra.elim,
                  fun hcontra => hcontra.elim,
                  fun it hit => (checkItem_ok_iff it).mp (h it hit)⟩
              · rintro ⟨-, -, h3⟩
                intro it hit
                exact (checkItem_ok_iff it).mpr (h3 it hit)

theorem dictGet_foldl_mem (ps : List (String × String)) (k v : String)
    (hmem : (k, v) ∈ ps) (hnd : (ps.map Prod.fst).Nodup) :
    ∀ m, dictGet (ps.foldl (fun m p => dictSet m p.1 p.2) m) k = some v := by
  obtain ⟨l1, l2, rfl⟩ := List.append_of_mem hmem
  intro m
  rw [List.foldl_append, List.foldl_cons]
  have habs : ∀ p ∈ l2, p.1 ≠ k := by
    rw [List.map_append, List.map_cons] at hnd
    have h2 := hnd.of_append_right
    rw [List.nodup_cons] at h2
    intro p hp hcontra
    have hin : p.1 ∈ l2.map Prod.fst := List.mem_map_of_mem _ hp
    rw [hcontra] at hin
    exact h2.1 hin
  rw [dictGet_foldl_of_absent l2 k habs]
  exact dictGet_dictSet_self _ _ _

theorem pySplitSpaceChars_no_space (cs : List Char) (acc : List Char)
    (h : ∀ c ∈ cs, (c == ' ') = false) :
    pySplitSpaceChars cs acc = [acc.reverse ++ cs] := by
  induction cs generalizing acc with
  | nil => simp [pySplitSpaceChars]
  | cons c rest ih =>
    have hc := h c (by simp)
    simp only [pySplitSpaceChars, hc, Bool.false_eq_true, if_false]
    rw [ih (c :: acc) (fun d hd => h d (by simp [hd]))]
    simp

theorem pySplitSpaceChars_append (cs r acc : List Char)
    (h : ∀ c ∈ cs, (c == ' ') = false) :
    pySplitSpaceChars (cs ++ ' ' :: r) acc =
      (acc.reverse ++ cs) :: pySplitSpaceChars r [] := by
  induction cs generalizing acc with
  | nil => simp [pySplitSpaceChars]
  | cons c rest ih =>
    have hc := h c (by simp)
    simp only [List.cons_append, List.append_eq, pySplitSpaceChars, hc,
      Bool.false_eq_true, if_false]
    rw [ih (c :: acc) (fun d hd => h d (by simp [hd]))]
    simp

theorem pySplitSpace_joinTokens (ts : List String) (hne : ts ≠ [])
    (h : ∀ t ∈ ts, ∀ c ∈ t.data, (c == ' ') = false) :
    pySplitSpace (joinTokens ts) = ts := by
  induction ts with
  | nil => exact absurd rfl hne
  | cons t rest ih =>
    cases rest with
    | nil =>
      unfold pySplitSpace joinTokens
      rw [pySplitSpaceChars_no_space t.data [] (h t (by simp))]
      simp
    | cons t2 rest2 =>
      have hdata : (joinTokens (t :: t2 :: rest2)).data =
          t.data ++ ' ' :: (joinTokens (t2 :: rest2)).data := by
        show (t ++ " " ++ joinTokens (t2 :: rest2)).data = _
        simp [String.data_append]
      unfold pySplitSpace
      rw [hdata, pySplitSpaceChars_append _ _ _ (h t (by simp))]
      simp only [List.reverse_nil, List.nil_append, List.map_cons]
      have ihr : (pySplitSpaceChars (joinTokens (t2 :: rest2)).data []).map
          String.mk = t2 :: rest2 :=
        ih (by simp) (fun u hu c hc => h u (by simp [hu]) c hc)
      rw [ihr]

theorem splitFirstEqChars_append (k v : List Char)
    (h : ∀ c ∈ k, (c == '=') = false) :
    splitFirstEqChars (k ++ '=' :: v) = some (k, v) := by
  induction k with
  | nil => simp [splitFirstEqChars]
  | cons c rest ih =>
    have hc := h c (by simp)
    simp only [List.cons_append, List.append_eq, splitFirstEqChars, hc,
      Bool.false_eq_true, if_false]
    rw [ih (fun d hd => h d (by simp [hd]))]
    rfl

theorem dropWhile_of_head_not (p : Char → Bool) (l : List Char)
    (h : ∀ c, l.head? = some c → p c = false) : l.dropWhile p = l := by
  cases l with
  | nil => rfl
  | cons c rest =>
    have hc := h c rfl
    simp [List.dropWhile_cons, hc]

theorem pyStrip_of_ends (s : String)
    (h1 : ∀ c, s.data.head? = some c → pyIsSpace c = false)
    (h2 : ∀ c, s.data.reverse.head? = some c → pyIsSpace c = false) :
    pyStrip s = s := by
  unfold pyStrip
  rw [dropWhile_of_head_not _ _ h1, dropWhile_of_head_not _ _ h2]
  simp

theorem mk_cons_ne_empty (c : Char) (l : List Char) :
    (String.mk (c :: l) == "") = false := by
  rw [beq_eq_false_iff_ne]
  intro hc
  have hdata : (c :: l) = ([] : List Char) := congrArg String.data hc
  exact absurd hdata (by simp)

theorem parseAttrPair_render (k v : String) (q : Bool)
    (hk : ∀ c ∈ k.data, (c == '=') = false)
    (hvq : q = false → pyStrip v = v ∧ v.data.head? ≠ some '"') :
    parseAttrPair (renderAttrToken (k, v, q)) = .ok (k, v) := by
  cases q with
  | true =>
    have hdata : (renderAttrToken (k, v, true)).data =
        k.data ++ '=' :: ('"' :: v.data ++ ['"']) := by
      show (k ++ "=" ++ ("\"" ++ v ++ "\"")).data = _
      simp [String.data_append]
    unfold parseAttrPair pySplitFirstEq
    rw [hdata, splitFirstEqChars_append _ _ hk]
    simp only [Option.map_some']
    have hstrip : pyStrip (String.mk ('"' :: v.data ++ ['"'])) =
        String.mk ('"' :: v.data ++ ['"']) := by
      apply pyStrip_of_ends
      · intro c hc
        simp only [List.head?] at hc
        cases hc
        rfl
      · intro c hc
        have : ('"' :: v.data ++ ['"']).reverse = '"' :: ('"' :: v.data).reverse := by
          have : '"' :: v.data ++ ['"'] = ('"' :: v.data) ++ ['"'] := by simp
          rw [this, List.reverse_append]
          rfl
        rw [this] at hc
        simp only [List.head?] at hc
        cases hc
        rfl
    have hhead : (String.mk ('"' :: v.data ++ ['"'])).data.head? = some '"' := rfl
    have hdrop : (List.drop 1 ('"' :: v.data ++ ['"'])).dropLast = v.data := by simp
    have hne2 : (String.mk ('"' :: v.data ++ ['"']) == "") = false :=
      mk_cons_ne_empty _ _
    simp only [hstrip, hhead, beq_self_eq_true, hne2, Bool.not_false,
      Bool.and_true, Bool.true_and, if_true, hdrop]
  | false =>
    obtain ⟨hstrip, hhead⟩ := hvq rfl
    have hdata : (renderAttrToken (k, v, false)).data = k.data ++ '=' :: v.data := by
      show (k ++ "=" ++ v).data = _
      simp [String.data_append]
    unfold parseAttrPair pySplitFirstEq
    rw [hdata, splitFirstEqChars_append _ _ hk]
    simp only [Option.map_some']
    have hv' : String.mk v.data = v := rfl
    rw [hv', hstrip]
    have hcond : (!(v == "") && (v.data.head? == some '"')) = false := by
      have : (v.data.head? == some '"') = false := beq_eq_false_iff_ne.mpr hhead
      simp [this]
    simp only [hcond, Bool.false_eq_true, if_false]

theorem foldlM_parse_render (tokens : List (String × String × Bool))
    (hk : ∀ t ∈ tokens, ∀ c ∈ t.1.data, (c == '=') = false)
    (hv : ∀ t ∈ tokens, t.2.2 = false →
      pyStrip t.2.1 = t.2.1 ∧ t.2.1.data.head? ≠ some '"') :
    ∀ m, ((tokens.map renderAttrToken).foldlM
      (fun m pair => do
        let kv ← parseAttrPair pair
        pure (dictSet m kv.1 kv.2)) m : Except String (List (String × String))) =
      .ok (tokens.foldl (fun m t => dictSet m t.1 t.2.1) m) := by
  induction tokens with
  | nil => intro m; rfl
  | cons t rest ih =>
    intro m
    simp only [List.map_cons, List.foldlM_cons, List.foldl_cons]
    have hp : parseAttrPair (renderAttrToken t) = .ok (t.1, t.2.1) := by
      have h := parseAttrPair_render t.1 t.2.1 t.2.2 (hk t (by simp)) (hv t (by simp))
      exact h
    rw [hp]
    exact ih (fun u hu => hk u (by simp [hu])) (fun u hu => hv u (by simp [hu]))
      (dictSet m t.1 t.2.1)

theorem parseSignAttrs_render (tokens : List (String × String × Bool))
    (hne : tokens ≠ [])
    (hk : ∀ t ∈ tokens, (∀ c ∈ t.1.data, (c == '=') = false) ∧
      (∀ c ∈ t.1.data, (c == ' ') = false))
    (hv : ∀ t ∈ tokens, (∀ c ∈ t.2.1.data, (c == ' ') = false) ∧
      (t.2.2 = false → pyStrip t.2.1 = t.2.1 ∧ t.2.1.data.head? ≠ some '"')) :
    parseSignAttrs (joinTokens (tokens.map renderAttrToken)) =
      .ok (tokens.foldl (fun m t => dictSet m t.1 t.2.1) []) := by
  have hts : ∀ t ∈ tokens.map renderAttrToken, ∀ c ∈ t.data, (c == ' ') = false := by
    intro t ht c hc
    obtain ⟨a, ha, rfl⟩ := List.mem_map.mp ht
    cases ha2 : a.2.2 with
    | true =>
      have hdata : (renderAttrToken a).data =
          a.1.data ++ '=' :: ('"' :: a.2.1.data ++ ['"']) := by
        unfold renderAttrToken
        rw [ha2]
        simp [String.data_append]
      rw [hdata] at hc
      rcases List.mem_append.mp hc with hc1 | hc2
      · exact (hk a ha).2 c hc1
      · rcases List.mem_cons.mp hc2 with rfl | hc3
        · rfl
        · rcases List.mem_cons.mp hc3 with rfl | hc4
          · rfl
          · rcases List.mem_append.mp hc4 with hc5 | hc6
            · exact (hv a ha).1 c hc5
            · rcases List.mem_cons.mp hc6 with rfl | hc7
              · rfl
              · exact absurd hc7 (by simp)
    | false =>
      have hdata : (renderAttrToken a).data = a.1.data ++ '=' :: a.2.1.data := by
        unfold renderAttrToken
        rw [ha2]
        simp [String.data_append]
      rw [hdata] at hc
      rcases List.mem_append.mp hc with hc1 | hc2
      · exact (hk a ha).2 c hc1
      · rcases List.mem_cons.mp hc2 with rfl | hc3
        · rfl
        · exact (hv a ha).1 c hc3
  unfold parseSignAttrs
  rw [pySplitSpace_joinTokens (tokens.map renderAttrToken) (by simpa using hne) hts]
  exact foldlM_parse_render tokens (fun t ht => (hk t ht).1)
    (fun t ht => (hv t ht).2) []

/-- C7 (amended): for every attribute blob consisting of non-empty
single-space-separated `key=value` tokens — keys free of `=` and spaces
and pairwise distinct, values free of spaces, either double-quoted or
surviving `strip` unchanged and not starting with a quote — the parsed
attribute mapping maps each token's key to its value with the surrounding
double quotes stripped (and the value otherwise unchanged). -/
theorem attr_blob_space_separated_parses (tokens : List (String × String × Bool))
    (hne : tokens ≠ [])
    (hk : ∀ t ∈ tokens, (∀ c ∈ t.1.data, (c == '=') = false) ∧
      (∀ c ∈ t.1.data, (c == ' ') = false))
    (hv : ∀ t ∈ tokens, (∀ c ∈ t.2.1.data, (c == ' ') = false) ∧
      (t.2.2 = false → pyStrip t.2.1 = t.2.1 ∧ t.2.1.data.head? ≠ some '"'))
    (hnd : (tokens.map (fun t => t.1)).Nodup) :
    ∃ m, parseSignAttrs (joinTokens (tokens.map renderAttrToken)) = .ok m ∧
      ∀ t ∈ tokens, dictGet m t.1 = some t.2.1 := by
  refine ⟨_, parseSignAttrs_render tokens hne hk hv, ?_⟩
  intro t ht
  have hconv : tokens.foldl (fun m t => dictSet m t.1 t.2.1)
      ([] : List (String × String)) =
      (tokens.map (fun t => (t.1, t.2.1))).foldl (fun m p => dictSet m p.1 p.2) [] := by
    rw [List.foldl_map]
  rw [hconv]
  apply dictGet_foldl_mem
  · exact List.mem_map_of_mem _ ht
  · simpa [List.map_map, Function.comp] using hnd

/-- C7 (amended, witness): a typical `sign_update` blob with a quoted
signature value and an unquoted length. -/
theorem attr_blob_space_separated_parses_witness :
    ∃ m, parseSignAttrs (joinTokens
        ([("sparkle:edSignature", "abc", true), ("length", "5", false)].map
          renderAttrToken)) = .ok m ∧
      ∀ t ∈ [("sparkle:edSignature", "abc", true), ("length", "5", false)],
        dictGet m t.1 = some t.2.1 :=
  attr_blob_space_separated_parses
    [("sparkle:edSignature", "abc", true), ("length", "5", false)]
    (by decide) (by decide) (by decide) (by decide)

/-- C9: against an existing well-formed document that already contains a
channel (well-formed: every tag is one an XML parse can produce), the
Updater leaves the channel's static descriptive fields untouched, keeps
every pre-existing item whose `sparkle:version` text differs from the new
build unchanged and in its original relative position, appends the new
item after all surviving children, emits no diagnostic, and changes
nothing in the document outside that one channel — the document written by
the single output-file write. -/
theorem upsert_preserves_existing_channel (env : UpdEnv)
    (attrs : List (String × String)) (root ch : Element)
    (hch : etFindChild root "channel" = some ch)
    (hwf : wfParsedTags root = true) :
    (runUpdate env attrs (.parsed root)).1 = none ∧
    ∃ ch', etFindChild (runUpdate env attrs (.parsed root)).2 "channel" = some ch' ∧
      ch'.tag = ch.tag ∧ ch'.attrib = ch.attrib ∧ ch'.text = ch.text ∧
      ch'.children.filter (fun c => !(c.tag == "item")) =
        ch.children.filter (fun c => !(c.tag == "item")) ∧
      (∃ kept, ch'.children = kept ++ [buildItem env attrs] ∧
        List.Sublist kept ch.children ∧
        ∀ c ∈ ch.children, (c.tag = "item" → itemBuildText c ≠ some env.build) →
          c ∈ kept) ∧
      ∃ l1 l2, root.children = l1 ++ ch :: l2 ∧
        (∀ x ∈ l1, (x.tag == "channel") = false) ∧
        (runUpdate env attrs (.parsed root)).2 =
          .mk root.tag root.attrib root.text (l1 ++ ch' :: l2) := by
  obtain ⟨l1, l2, hl, hfail, hout⟩ := runUpdate_parsed_with_channel env attrs root ch hch
  have hchmem : ch ∈ root.children := by rw [hl]; simp
  refine ⟨rfl, upsertChannel env attrs ch,
    etFindChild_upsert_out env attrs root ch hch, rfl, rfl, rfl, ?_, ?_,
    ⟨l1, l2, hl, hfail, hout⟩⟩
  · show (removeSameBuildItems env.build ch.children ++ [buildItem env attrs]).filter
        (fun c => !(c.tag == "item")) =
      ch.children.filter (fun c => !(c.tag == "item"))
    rw [List.filter_append]
    have h1 : [buildItem env attrs].filter (fun c => !(c.tag == "item")) = [] := by
      have hbi : ((buildItem env attrs).tag == "item") = true := by
        rw [buildItem_tag]
        exact beq_self_eq_true _
      simp [List.filter, hbi]
    rw [h1, List.append_nil]
    unfold removeSameBuildItems
    rw [List.filter_filter]
    apply List.filter_congr
    intro c _
    cases hct : (c.tag == "item") with
    | true => simp [hct]
    | false => simp [hct]
  · refine ⟨removeSameBuildItems env.build ch.children, rfl, ?_, ?_⟩
    · exact List.filter_sublist _
    · intro c hc hcond
      unfold removeSameBuildItems
      rw [List.mem_filter]
      refine ⟨hc, ?_⟩
      cases hct : (c.tag == "item") with
      | false => simp [hct]
      | true =>
        have htag : c.tag = "item" := by rwa [beq_iff_eq] at hct
        have hne := hcond htag
        have hwc : wfParsedTags c = true :=
          wfParsedTags_child ch c (wfParsedTags_child root ch hwf hchmem) hc
        rw [matchesBuild_of_wf env.build c hwc]
        cases hfv : etFindChild c (sparkle_tag "version") with
        | none => simp [hct, hfv]
        | some v =>
          have hvt : itemBuildText c = v.text := by
            unfold itemBuildText
            rw [hfv]
            rfl
          rw [hvt] at hne
          have hvb : (v.text == some env.build) = false := beq_eq_false_iff_ne.mpr hne
          simp [hct, hfv, hvb]

/-- C9 (witness): the theorem at the concrete appcast `exRoot42`. -/
theorem upsert_preserves_existing_channel_witness :
    (etFindChild exRoot42 "channel" = some exChannel42) ∧
    (wfParsedTags exRoot42 = true) ∧
    ((runUpdate exEnv exAttrs (.parsed exRoot42)).1 = none ∧
      ∃ ch', etFindChild (runUpdate exEnv exAttrs (.parsed exRoot42)).2 "channel" =
          some ch' ∧
        ch'.tag = exChannel42.tag ∧ ch'.attrib = exChannel42.attrib ∧
        ch'.text = exChannel42.text ∧
        ch'.children.filter (fun c => !(c.tag == "item")) =
          exChannel42.children.filter (fun c => !(c.tag == "item")) ∧
        (∃ kept, ch'.children = kept ++ [buildItem exEnv exAttrs] ∧
          List.Sublist kept exChannel42.children ∧
          ∀ c ∈ exChannel42.children,
            (c.tag = "item" → itemBuildText c ≠ some exEnv.build) → c ∈ kept) ∧
        ∃ l1 l2, exRoot42.children = l1 ++ exChannel42 :: l2 ∧
          (∀ x ∈ l1, (x.tag == "channel") = false) ∧
          (runUpdate exEnv exAttrs (.parsed exRoot42)).2 =
            .mk exRoot42.tag exRoot42.attrib exRoot42.text (l1 ++ ch' :: l2)) :=
  ⟨rfl, by decide,
    upsert_preserves_existing_channel exEnv exAttrs exRoot42 exChannel42 rfl (by decide)⟩

end Appcast
